import Mathlib

/-!
Verification of the memos-sync reconciliation core
(`src/packages/plugin-obsidian/main.ts`, method `MemosSyncPlugin.sync`).

The plugin state is embedded shallowly:
* the Obsidian vault (the external Local Store Adapter of the spec) is a
  pair of a folder list and an association list from file paths to file
  contents; `exists`, `createFolder`, `write`, `writeBinary`, `list` and
  `remove` are modelled as pure functions on that state;
* paths are the strings the source builds by template-literal
  concatenation;
* the remote fetch is a parameter of type `Except String Snapshot`: `.ok`
  is a successful `fetchMemosWithResource` call, `.error` a thrown fetch
  error;
* `saveData` is modelled by returning the saved payload (`Option
  Settings`); user-facing `log` notices are collected in a list
  (the `debug`-gated channel is elided: it writes no state);
* the per-item loops run sequentially in source order.
-/

namespace MemosSync

/-- File contents: `adapter.write` stores text, `adapter.writeBinary`
stores a binary payload (modelled as a list of bytes). -/
inductive FData where
  | text (s : String)
  | bin (b : List Nat)
deriving DecidableEq, Repr

/-- A remote memo as returned by `fetchMemosWithResource`: fields `id`,
`content`, `updatedTs` (seconds since epoch). -/
structure Memo where
  id : String
  content : String
  updatedTs : Nat
deriving DecidableEq, Repr

/-- A remote resource: fields `filename` and binary `content`. -/
structure Resource where
  filename : String
  content : List Nat
deriving DecidableEq, Repr

/-- The result of one `fetchMemosWithResource` call. -/
structure Snapshot where
  memos : List Memo
  resources : List Resource
deriving DecidableEq, Repr

/-- `MemosSyncPluginSettings`. -/
structure Settings where
  openAPI : String
  folderToSync : String
  debug : Bool
  lastSyncTime : Option Nat
deriving DecidableEq, Repr

/-- Modelled from the spec: the Local Store Adapter's state (the Obsidian
vault is external to the repository).  `folders` is the set of existing
folders, `files` maps each file path to its contents. -/
structure Vault where
  folders : List String
  files : List (String × FData)
deriving DecidableEq, Repr

/-- Look up the contents of the file at path `p`. -/
def lookupFile : List (String × FData) → String → Option FData
  | [], _ => none
  | (q, d) :: t, p => if q = p then some d else lookupFile t p

/-- Create-or-overwrite the binding of path `p`. -/
def setFile : List (String × FData) → String → FData → List (String × FData)
  | [], p, c => [(p, c)]
  | (q, d) :: t, p, c => if q = p then (p, c) :: t else (q, d) :: setFile t p c

/-- Modelled from the spec: `adapter.exists(path)` — true when a folder or
a file exists at `path`. -/
def Vault.existsPath (v : Vault) (p : String) : Bool :=
  decide (p ∈ v.folders) || decide (p ∈ v.files.map Prod.fst)

/-- Modelled from the spec: `vault.createFolder(path)`. -/
def Vault.createFolder (v : Vault) (p : String) : Vault :=
  { v with folders := v.folders ++ [p] }

/-- Modelled from the spec: `adapter.write(path, content)` (text). -/
def Vault.write (v : Vault) (p : String) (c : String) : Vault :=
  { v with files := setFile v.files p (.text c) }

/-- Modelled from the spec: `adapter.writeBinary(path, content)`. -/
def Vault.writeBinary (v : Vault) (p : String) (c : List Nat) : Vault :=
  { v with files := setFile v.files p (.bin c) }

/-- Modelled from the spec: `adapter.remove(path)`. -/
def Vault.remove (v : Vault) (p : String) : Vault :=
  { v with files := v.files.filter (fun e => decide (e.1 ≠ p)) }

/-- Helper for the direct-children test: drop `pre` from the front of `l`,
or fail when `pre` is not a prefix. -/
def dropLead : List Char → List Char → Option (List Char)
  | [], l => some l
  | _ :: _, [] => none
  | a :: pre, b :: l => if a = b then dropLead pre l else none

/-- Modelled from the spec: membership of path `p` in the flat directory
listing of folder `f` — `p` is `f ++ "/" ++ name` with no `/` in `name`. -/
def isChildOf (f p : String) : Bool :=
  match dropLead (f.data ++ ['/']) p.data with
  | some rest => decide (¬ '/' ∈ rest)
  | none => false

/-- Modelled from the spec: `adapter.list(folder).files` — the paths of the
files directly inside `folder`. -/
def Vault.list (v : Vault) (f : String) : List String :=
  (v.files.map Prod.fst).filter (fun p => isChildOf f p)

/-- `` `${folderToSync}/memos` ``. -/
def memosFolder (folder : String) : String :=
  folder ++ "/memos"

/-- `` `${folderToSync}/resources` ``. -/
def resourcesFolder (folder : String) : String :=
  folder ++ "/resources"

/-- `` `${folderToSync}/memos/${memo.id}.md` ``. -/
def memoPath (folder : String) (m : Memo) : String :=
  folder ++ "/memos/" ++ m.id ++ ".md"

/-- `` `${folderToSync}/resources/${resource.filename}` ``. -/
def resourcePath (folder : String) (r : Resource) : String :=
  folder ++ "/resources/" ++ r.filename

/-- The skip guard of the memo loop:
`lastSyncTime && lastUpdated * 1000 < lastSyncTime` (an absent
`lastSyncTime` and the number `0` are both falsy in the source). -/
def skipMemo (lastSyncTime : Option Nat) (m : Memo) : Bool :=
  match lastSyncTime with
  | none => false
  | some t => decide (t ≠ 0) && decide (m.updatedTs * 1000 < t)

/-- The first check-then-create block of `sync` (memos folder). -/
def ensureMemosFolder (folder : String) (v : Vault) : Vault :=
  if v.existsPath (memosFolder folder) then v
  else v.createFolder (memosFolder folder)

/-- The second check-then-create block of `sync` (resources folder). -/
def ensureResourcesFolder (folder : String) (v : Vault) : Vault :=
  if v.existsPath (resourcesFolder folder) then v
  else v.createFolder (resourcesFolder folder)

/-- The two check-then-create folder steps of `sync`, in source order. -/
def ensureFolders (folder : String) (v : Vault) : Vault :=
  ensureResourcesFolder folder (ensureMemosFolder folder v)

/-- The memo loop: `res.memos.forEach(...)` — skip per `skipMemo`,
otherwise write the memo's content at its path. -/
def writeMemos (folder : String) (lastSyncTime : Option Nat) :
    List Memo → Vault → Vault
  | [], v => v
  | m :: rest, v =>
    if skipMemo lastSyncTime m then writeMemos folder lastSyncTime rest v
    else writeMemos folder lastSyncTime rest
      (v.write (memoPath folder m) m.content)

/-- The resource loop: `res.resources.forEach(...)` — skip when a file or
folder already exists at the resource path, otherwise write the binary
content. -/
def writeResources (folder : String) : List Resource → Vault → Vault
  | [], v => v
  | r :: rest, v =>
    if v.existsPath (resourcePath folder r) then writeResources folder rest v
    else writeResources folder rest
      (v.writeBinary (resourcePath folder r) r.content)

/-- `res.memos.map((memo) => ...)`: the expected memo paths. -/
def memosInAPI (folder : String) (res : Snapshot) : List String :=
  res.memos.map (memoPath folder)

/-- `res.resources.map((resource) => ...)`: the expected resource paths. -/
def resourcesInAPI (folder : String) (res : Snapshot) : List String :=
  res.resources.map (resourcePath folder)

/-- One orphan-deletion loop: walk the listing and remove every path not
in the expected list; returns the new vault and the removed paths. -/
def pruneFolder (expected : List String) :
    List String → Vault → Vault × List String
  | [], v => (v, [])
  | p :: rest, v =>
    if p ∈ expected then pruneFolder expected rest v
    else
      let out := pruneFolder expected rest (v.remove p)
      (out.1, p :: out.2)

/-- The vault after folder creation and both write loops (the state whose
listings the pruning step reads). -/
def afterWrites (s : Settings) (res : Snapshot) (v : Vault) : Vault :=
  writeResources s.folderToSync res.resources
    (writeMemos s.folderToSync s.lastSyncTime res.memos
      (ensureFolders s.folderToSync v))

/-- The memo-orphan deletion loop of `sync`, applied to the vault whose
listing it reads. -/
def pruneMemosStep (s : Settings) (res : Snapshot) (v4 : Vault) :
    Vault × List String :=
  pruneFolder (memosInAPI s.folderToSync res)
    (v4.list (memosFolder s.folderToSync)) v4

/-- The resource-orphan deletion loop of `sync`, applied to the vault
whose listing it reads. -/
def pruneResourcesStep (s : Settings) (res : Snapshot) (v5 : Vault) :
    Vault × List String :=
  pruneFolder (resourcesInAPI s.folderToSync res)
    (v5.list (resourcesFolder s.folderToSync)) v5

/-- The vault at the end of a successful run: folder creation, both write
loops, then both pruning loops in source order. -/
def finalVault (s : Settings) (res : Snapshot) (v : Vault) : Vault :=
  (pruneResourcesStep s res (pruneMemosStep s res (afterWrites s res v)).1).1

/-- The outcome of one `sync` run: final vault, the payload handed to
`saveData` (if any), the `log` notices in order, whether
`fetchMemosWithResource` was invoked, and the paths removed by each of the
two pruning loops. -/
structure SyncResult where
  vault : Vault
  saved : Option Settings
  notices : List String
  fetchCalled : Bool
  memoDeleted : List String
  resourceDeleted : List String
deriving DecidableEq, Repr

/-- `MemosSyncPlugin.sync`, with the settings loaded at run start, the
fetch outcome, `Date.now()` at the save point, and the initial vault as
parameters. -/
def sync (s : Settings) (fetchRes : Except String Snapshot) (now : Nat)
    (v : Vault) : SyncResult :=
  if s.openAPI = "" then
    { vault := v, saved := none
      notices := ["Please enter your OpenAPI key."]
      fetchCalled := false, memoDeleted := [], resourceDeleted := [] }
  else
    match fetchRes with
    | .error _ =>
      { vault := v, saved := none
        notices := ["Start syncing memos.",
          "Failed to sync memos. Please check your OpenAPI key and network."]
        fetchCalled := true, memoDeleted := [], resourceDeleted := [] }
    | .ok res =>
      { vault := finalVault s res v
        saved := some { s with lastSyncTime := some now }
        notices := ["Start syncing memos.", "Sync memos successfully."]
        fetchCalled := true
        memoDeleted := (pruneMemosStep s res (afterWrites s res v)).2
        resourceDeleted :=
          (pruneResourcesStep s res
            (pruneMemosStep s res (afterWrites s res v)).1).2 }

/-! ### Instrumented model for store errors

`adapter.write(memoPath, memoContent)` is invoked without `await` and
without a surrounding per-item handler: the returned promise is discarded,
so a rejected write leaves the file unwritten and its error is neither
caught nor logged by the plugin, and the run continues.  `failing` is the
set of paths whose write rejects. -/

/-- The memo loop with a failure oracle for `adapter.write`: a write to a
path in `failing` is dropped (fire-and-forget rejection), everything else
behaves as `writeMemos`. -/
def writeMemosF (folder : String) (lastSyncTime : Option Nat)
    (failing : List String) : List Memo → Vault → Vault
  | [], v => v
  | m :: rest, v =>
    if skipMemo lastSyncTime m then writeMemosF folder lastSyncTime failing rest v
    else if memoPath folder m ∈ failing then
      writeMemosF folder lastSyncTime failing rest v
    else writeMemosF folder lastSyncTime failing rest
      (v.write (memoPath folder m) m.content)

/-- `afterWrites` with the failure oracle on memo writes. -/
def afterWritesF (s : Settings) (res : Snapshot) (v : Vault)
    (failing : List String) : Vault :=
  writeResources s.folderToSync res.resources
    (writeMemosF s.folderToSync s.lastSyncTime failing res.memos
      (ensureFolders s.folderToSync v))

/-- The vault at the end of a run under the failure oracle. -/
def finalVaultF (s : Settings) (res : Snapshot) (v : Vault)
    (failing : List String) : Vault :=
  (pruneResourcesStep s res
    (pruneMemosStep s res (afterWritesF s res v failing)).1).1

/-- `MemosSyncPlugin.sync` under the failure oracle on memo writes. -/
def syncF (s : Settings) (fetchRes : Except String Snapshot) (now : Nat)
    (v : Vault) (failing : List String) : SyncResult :=
  if s.openAPI = "" then
    { vault := v, saved := none
      notices := ["Please enter your OpenAPI key."]
      fetchCalled := false, memoDeleted := [], resourceDeleted := [] }
  else
    match fetchRes with
    | .error _ =>
      { vault := v, saved := none
        notices := ["Start syncing memos.",
          "Failed to sync memos. Please check your OpenAPI key and network."]
        fetchCalled := true, memoDeleted := [], resourceDeleted := [] }
    | .ok res =>
      { vault := finalVaultF s res v failing
        saved := some { s with lastSyncTime := some now }
        notices := ["Start syncing memos.", "Sync memos successfully."]
        fetchCalled := true
        memoDeleted := (pruneMemosStep s res (afterWritesF s res v failing)).2
        resourceDeleted :=
          (pruneResourcesStep s res
            (pruneMemosStep s res (afterWritesF s res v failing)).1).2 }

/-! ### Concrete fixtures used by the witnesses -/

/-- A concrete memo. -/
def wMemo : Memo :=
  { id := "a", content := "hello", updatedTs := 1 }

/-- A second concrete memo. -/
def wMemo2 : Memo :=
  { id := "b", content := "world", updatedTs := 2 }

/-- A concrete resource. -/
def wRes : Resource :=
  { filename := "img.png", content := [1, 2] }

/-- A concrete remote snapshot. -/
def wSnap : Snapshot :=
  { memos := [wMemo, wMemo2], resources := [wRes] }

/-- Concrete settings with a non-empty credential and no checkpoint. -/
def wSettings : Settings :=
  { openAPI := "key", folderToSync := "f", debug := false,
    lastSyncTime := none }

/-- An empty concrete vault. -/
def wVault : Vault :=
  { folders := [], files := [] }

/-- A concrete vault pre-seeded with a stale memo file, an orphan memo
file and a resource file whose content differs from the remote one. -/
def wVaultSeeded : Vault :=
  { folders := []
    files := [("f/memos/a.md", .text "stale"), ("f/memos/zzz.md", .text "junk"),
      ("f/resources/img.png", .bin [9])] }

/-! ### Path-level facts -/

theorem memosFolder_data (folder : String) :
    (memosFolder folder).data =
      folder.data ++ ['/', 'm', 'e', 'm', 'o', 's'] := by
  simp [memosFolder]

theorem resourcesFolder_data (folder : String) :
    (resourcesFolder folder).data =
      folder.data ++ ['/', 'r', 'e', 's', 'o', 'u', 'r', 'c', 'e', 's'] := by
  simp [resourcesFolder]

theorem memoPath_data (folder : String) (m : Memo) :
    (memoPath folder m).data =
      folder.data ++
        '/' :: 'm' :: 'e' :: 'm' :: 'o' :: 's' :: '/' ::
          (m.id.data ++ ['.', 'm', 'd']) := by
  simp [memoPath, List.append_assoc]

theorem resourcePath_data (folder : String) (r : Resource) :
    (resourcePath folder r).data =
      folder.data ++
        '/' :: 'r' :: 'e' :: 's' :: 'o' :: 'u' :: 'r' :: 'c' :: 'e' :: 's' ::
          '/' :: r.filename.data := by
  simp [resourcePath, List.append_assoc]

theorem memoPath_inj {folder : String} {m₁ m₂ : Memo}
    (h : memoPath folder m₁ = memoPath folder m₂) : m₁.id = m₂.id := by
  have hd := congrArg String.data h
  rw [memoPath_data, memoPath_data] at hd
  have h1 := List.append_cancel_left hd
  repeat injection h1 with _ h1
  have h2 := List.append_cancel_right h1
  exact String.ext h2

theorem memoPath_ne_resourcePath (folder : String) (m : Memo) (r : Resource) :
    memoPath folder m ≠ resourcePath folder r := by
  intro h
  have hd := congrArg String.data h
  rw [memoPath_data, resourcePath_data] at hd
  have h1 := List.append_cancel_left hd
  injection h1 with _ h1
  injection h1 with h2 _
  exact absurd h2 (by decide)

theorem memosFolder_ne_resourcePath (folder : String) (r : Resource) :
    memosFolder folder ≠ resourcePath folder r := by
  intro h
  have hd := congrArg String.data h
  rw [memosFolder_data, resourcePath_data] at hd
  have h1 := List.append_cancel_left hd
  injection h1 with _ h1
  injection h1 with h2 _
  exact absurd h2 (by decide)

theorem resourcesFolder_ne_resourcePath (folder : String) (r : Resource) :
    resourcesFolder folder ≠ resourcePath folder r := by
  intro h
  have hd := congrArg String.data h
  rw [resourcesFolder_data, resourcePath_data] at hd
  have h1 := List.append_cancel_left hd
  have h2 := congrArg List.length h1
  simp at h2

theorem dropLead_append (pre l : List Char) : dropLead pre (pre ++ l) = some l := by
  induction pre with
  | nil => rfl
  | cons a pre ih => simp [dropLead, ih]

theorem dropLead_eq_some {pre l r : List Char}
    (h : dropLead pre l = some r) : l = pre ++ r := by
  induction pre generalizing l with
  | nil => simpa [dropLead] using h
  | cons a pre ih =>
    cases l with
    | nil => exact absurd h (by simp [dropLead])
    | cons b t =>
      by_cases hab : a = b
      · subst hab
        rw [dropLead] at h
        simp at h
        rw [ih h]
        rfl
      · rw [dropLead, if_neg hab] at h
        exact absurd h (by simp)

theorem isChildOf_iff (f p : String) :
    isChildOf f p = true ↔
      ∃ rest, p.data = f.data ++ '/' :: rest ∧ ¬ '/' ∈ rest := by
  unfold isChildOf
  cases h : dropLead (f.data ++ ['/']) p.data with
  | none =>
    simp only [Bool.false_eq_true, false_iff]
    rintro ⟨rest, hrest, -⟩
    have : p.data = (f.data ++ ['/']) ++ rest := by
      rw [hrest, List.append_assoc]
      rfl
    rw [this, dropLead_append] at h
    exact absurd h (by simp)
  | some rest =>
    have hp : p.data = f.data ++ '/' :: rest := by
      have := dropLead_eq_some h
      rw [this, List.append_assoc]
      rfl
    simp only [decide_eq_true_eq]
    constructor
    · intro hmem
      exact ⟨rest, hp, hmem⟩
    · rintro ⟨rest2, hrest2, hmem2⟩
      have : ('/' :: rest : List Char) = '/' :: rest2 :=
        List.append_cancel_left (hp ▸ hrest2)
      injection this with _ h2
      exact h2 ▸ hmem2

theorem not_isChildOf_self (f : String) : ¬ isChildOf f f = true := by
  rw [isChildOf_iff]
  rintro ⟨rest, h, -⟩
  have := congrArg List.length h
  simp at this

theorem isChildOf_memosFolder_memoPath (folder : String) (m : Memo)
    (h : ¬ '/' ∈ m.id.data) :
    isChildOf (memosFolder folder) (memoPath folder m) = true := by
  rw [isChildOf_iff]
  refine ⟨m.id.data ++ ['.', 'm', 'd'], ?_, ?_⟩
  · rw [memoPath_data, memosFolder_data, List.append_assoc]
    rfl
  · simp [List.mem_append, h]

theorem isChildOf_resourcesFolder_resourcePath (folder : String) (r : Resource)
    (h : ¬ '/' ∈ r.filename.data) :
    isChildOf (resourcesFolder folder) (resourcePath folder r) = true := by
  rw [isChildOf_iff]
  refine ⟨r.filename.data, ?_, h⟩
  rw [resourcePath_data, resourcesFolder_data, List.append_assoc]
  rfl

theorem not_isChildOf_resourcesFolder_memoPath (folder : String) (m : Memo) :
    ¬ isChildOf (resourcesFolder folder) (memoPath folder m) = true := by
  rw [isChildOf_iff]
  rintro ⟨rest, hr, -⟩
  rw [memoPath_data, resourcesFolder_data, List.append_assoc] at hr
  have h1 := List.append_cancel_left hr
  injection h1 with _ h1
  injection h1 with h2 _
  exact absurd h2 (by decide)

theorem not_isChildOf_memosFolder_resourcePath (folder : String) (r : Resource) :
    ¬ isChildOf (memosFolder folder) (resourcePath folder r) = true := by
  rw [isChildOf_iff]
  rintro ⟨rest, hr, -⟩
  rw [resourcePath_data, memosFolder_data, List.append_assoc] at hr
  have h1 := List.append_cancel_left hr
  injection h1 with _ h1
  injection h1 with h2 _
  exact absurd h2 (by decide)

theorem not_isChildOf_memosFolder_resourcesFolder (folder : String) :
    ¬ isChildOf (memosFolder folder) (resourcesFolder folder) = true := by
  rw [isChildOf_iff]
  rintro ⟨rest, hr, -⟩
  rw [resourcesFolder_data, memosFolder_data, List.append_assoc] at hr
  have h1 := List.append_cancel_left hr
  injection h1 with _ h1
  injection h1 with h2 _
  exact absurd h2 (by decide)

theorem not_isChildOf_resourcesFolder_memosFolder (folder : String) :
    ¬ isChildOf (resourcesFolder folder) (memosFolder folder) = true := by
  rw [isChildOf_iff]
  rintro ⟨rest, hr, -⟩
  rw [memosFolder_data, resourcesFolder_data, List.append_assoc] at hr
  have h1 := List.append_cancel_left hr
  injection h1 with _ h1
  injection h1 with h2 _
  exact absurd h2 (by decide)

theorem mem_list_iff (v : Vault) (f q : String) :
    q ∈ v.list f ↔ q ∈ v.files.map Prod.fst ∧ isChildOf f q = true := by
  simp [Vault.list, List.mem_filter]

/-! ### Association-list facts -/

theorem lookupFile_setFile_self (fs : List (String × FData)) (p : String)
    (c : FData) : lookupFile (setFile fs p c) p = some c := by
  induction fs with
  | nil => simp [setFile, lookupFile]
  | cons e t ih =>
    obtain ⟨q, d⟩ := e
    by_cases h : q = p
    · subst h
      simp [setFile, lookupFile]
    · simp [setFile, lookupFile, h, ih]

theorem lookupFile_setFile_ne (fs : List (String × FData)) (p : String)
    (c : FData) (q : String) (h : q ≠ p) :
    lookupFile (setFile fs p c) q = lookupFile fs q := by
  induction fs with
  | nil => simp [setFile, lookupFile, Ne.symm h]
  | cons e t ih =>
    obtain ⟨q', d⟩ := e
    by_cases h' : q' = p
    · subst h'
      simp [setFile, lookupFile, Ne.symm h]
    · by_cases hq : q' = q
      · simp [setFile, lookupFile, h', hq, h]
      · simp [setFile, lookupFile, h', hq, ih]

theorem setFile_eq_self {fs : List (String × FData)} {p : String} {c : FData}
    (h : lookupFile fs p = some c) : setFile fs p c = fs := by
  induction fs with
  | nil => simp [lookupFile] at h
  | cons e t ih =>
    obtain ⟨q, d⟩ := e
    by_cases hq : q = p
    · subst hq
      simp [lookupFile] at h
      simp [setFile, h]
    · simp [lookupFile, hq] at h
      simp [setFile, hq, ih h]

theorem mem_keys_setFile (fs : List (String × FData)) (p : String) (c : FData)
    (q : String) :
    q ∈ (setFile fs p c).map Prod.fst ↔ q = p ∨ q ∈ fs.map Prod.fst := by
  induction fs with
  | nil => simp [setFile]
  | cons e t ih =>
    obtain ⟨q', d⟩ := e
    by_cases h : q' = p
    · subst h
      simp [setFile]
    · simp [setFile, h, ih]
      tauto

theorem mem_keys_iff_lookup (fs : List (String × FData)) (q : String) :
    q ∈ fs.map Prod.fst ↔ ∃ c, lookupFile fs q = some c := by
  induction fs with
  | nil => simp [lookupFile]
  | cons e t ih =>
    obtain ⟨q', d⟩ := e
    by_cases h : q' = q
    · subst h
      simp [lookupFile]
    · simp [lookupFile, h, Ne.symm h, ih]

theorem lookupFile_filter (fs : List (String × FData)) (pk : String → Bool)
    (p : String) (h : pk p = true) :
    lookupFile (fs.filter (fun e => pk e.1)) p = lookupFile fs p := by
  induction fs with
  | nil => rfl
  | cons e t ih =>
    obtain ⟨q, d⟩ := e
    by_cases hq : q = p
    · subst hq
      simp [List.filter_cons, h, lookupFile]
    · by_cases hpk : pk q = true
      · simp [List.filter_cons, hpk, lookupFile, hq, ih]
      · simp [List.filter_cons, hpk, lookupFile, hq, ih]

theorem mem_keys_filter (fs : List (String × FData)) (pk : String → Bool)
    (q : String) :
    q ∈ (fs.filter (fun e => pk e.1)).map Prod.fst ↔
      q ∈ fs.map Prod.fst ∧ pk q = true := by
  induction fs with
  | nil => simp
  | cons e t ih =>
    obtain ⟨q', d⟩ := e
    by_cases hpk : pk q' = true
    · simp only [List.filter_cons, hpk, if_true, List.map_cons, List.mem_cons, ih]
      constructor
      · rintro (rfl | ⟨h1, h2⟩)
        · exact ⟨Or.inl rfl, hpk⟩
        · exact ⟨Or.inr h1, h2⟩
      · rintro ⟨rfl | h1, h2⟩
        · exact Or.inl rfl
        · exact Or.inr ⟨h1, h2⟩
    · simp only [List.filter_cons, hpk, if_false, List.map_cons, List.mem_cons,
        ih, Bool.false_eq_true]
      constructor
      · rintro ⟨h1, h2⟩
        exact ⟨Or.inr h1, h2⟩
      · rintro ⟨rfl | h1, h2⟩
        · exact absurd h2 hpk
        · exact ⟨h1, h2⟩

/-! ### Facts about the folder-creation step -/

theorem existsPath_iff (v : Vault) (p : String) :
    v.existsPath p = true ↔ p ∈ v.folders ∨ p ∈ v.files.map Prod.fst := by
  simp [Vault.existsPath]

theorem ensureFolders_files (folder : String) (v : Vault) :
    (ensureFolders folder v).files = v.files := by
  unfold ensureFolders ensureResourcesFolder ensureMemosFolder
  split <;> split <;> rfl

theorem mem_folders_ensureFolders {folder : String} {v : Vault} {q : String}
    (h : q ∈ (ensureFolders folder v).folders) :
    q ∈ v.folders ∨ q = memosFolder folder ∨ q = resourcesFolder folder := by
  unfold ensureFolders ensureResourcesFolder ensureMemosFolder at h
  split at h <;> split at h <;>
    first
      | exact Or.inl h
      | (simp only [Vault.createFolder, List.mem_append, List.mem_singleton] at h
         tauto)

theorem folders_mono_ensureFolders {folder : String} {v : Vault} {q : String}
    (h : q ∈ v.folders) : q ∈ (ensureFolders folder v).folders := by
  unfold ensureFolders ensureResourcesFolder ensureMemosFolder
  split <;> split <;>
    first
      | exact h
      | (simp only [Vault.createFolder, List.mem_append, List.mem_singleton]
         tauto)

theorem existsPath_ensureFolders_memos (folder : String) (v : Vault) :
    (ensureFolders folder v).existsPath (memosFolder folder) = true := by
  have h1 : (ensureMemosFolder folder v).existsPath (memosFolder folder) = true := by
    unfold ensureMemosFolder
    split
    · assumption
    · rw [existsPath_iff]
      exact Or.inl (by simp [Vault.createFolder])
  unfold ensureFolders ensureResourcesFolder
  split
  · exact h1
  · rw [existsPath_iff] at h1 ⊢
    rcases h1 with h1 | h1
    · exact Or.inl (by simp [Vault.createFolder, h1])
    · exact Or.inr (by simpa [Vault.createFolder] using h1)

theorem existsPath_ensureFolders_resources (folder : String) (v : Vault) :
    (ensureFolders folder v).existsPath (resourcesFolder folder) = true := by
  unfold ensureFolders ensureResourcesFolder
  split
  · assumption
  · rw [existsPath_iff]
    exact Or.inl (by simp [Vault.createFolder])

theorem ensureFolders_eq_self {folder : String} {v : Vault}
    (h1 : v.existsPath (memosFolder folder) = true)
    (h2 : v.existsPath (resourcesFolder folder) = true) :
    ensureFolders folder v = v := by
  unfold ensureFolders ensureResourcesFolder ensureMemosFolder
  simp [h1, h2]

/-! ### Facts about the memo-write loop -/

theorem writeMemos_folders (f : String) (l : Option Nat) (M : List Memo) :
    ∀ v : Vault, (writeMemos f l M v).folders = v.folders := by
  induction M with
  | nil => intro v; rfl
  | cons m rest ih =>
    intro v
    by_cases hs : skipMemo l m = true
    · rw [writeMemos, if_pos hs]
      exact ih v
    · rw [writeMemos, if_neg hs, ih]
      rfl

theorem writeMemos_lookup_of_ne (f : String) (l : Option Nat) (M : List Memo)
    (p : String)
    (h : ∀ m ∈ M, skipMemo l m = false → memoPath f m ≠ p) :
    ∀ v : Vault,
      lookupFile (writeMemos f l M v).files p = lookupFile v.files p := by
  induction M with
  | nil => intro v; rfl
  | cons m rest ih =>
    intro v
    have hrest := fun m' hm' => h m' (List.mem_cons_of_mem _ hm')
    by_cases hs : skipMemo l m = true
    · rw [writeMemos, if_pos hs]
      exact ih hrest v
    · rw [writeMemos, if_neg hs, ih hrest]
      exact lookupFile_setFile_ne _ _ _ _
        (Ne.symm (h m (List.mem_cons_self m rest) (Bool.eq_false_iff.mpr hs)))

theorem writeMemos_lookup_inv (f : String) (l : Option Nat) (M : List Memo)
    (p : String) (d : FData)
    (h : ∀ m ∈ M, skipMemo l m = false → memoPath f m = p →
      FData.text m.content = d) :
    ∀ v : Vault, lookupFile v.files p = some d →
      lookupFile (writeMemos f l M v).files p = some d := by
  induction M with
  | nil => intro v h0; exact h0
  | cons m rest ih =>
    intro v h0
    have hrest := fun m' hm' => h m' (List.mem_cons_of_mem _ hm')
    by_cases hs : skipMemo l m = true
    · rw [writeMemos, if_pos hs]
      exact ih hrest v h0
    · rw [writeMemos, if_neg hs]
      apply ih hrest
      by_cases hp : memoPath f m = p
      · have hd := h m (List.mem_cons_self m rest) (Bool.eq_false_iff.mpr hs) hp
        show lookupFile (setFile v.files (memoPath f m) (.text m.content)) p
          = some d
        rw [hp, lookupFile_setFile_self, hd]
      · show lookupFile (setFile v.files (memoPath f m) (.text m.content)) p
          = some d
        rw [lookupFile_setFile_ne _ _ _ _ (fun he => hp he.symm)]
        exact h0

theorem writeMemos_lookup_self (f : String) (l : Option Nat) (M : List Memo)
    (m : Memo) (hm : m ∈ M) (hs : skipMemo l m = false)
    (hu : ∀ m' ∈ M, skipMemo l m' = false →
      memoPath f m' = memoPath f m → m'.content = m.content) :
    ∀ v : Vault,
      lookupFile (writeMemos f l M v).files (memoPath f m)
        = some (.text m.content) := by
  induction M with
  | nil => cases hm
  | cons m₀ rest ih =>
    intro v
    have hurest := fun m' hm' => hu m' (List.mem_cons_of_mem _ hm')
    by_cases hmr : m ∈ rest
    · by_cases hs₀ : skipMemo l m₀ = true
      · rw [writeMemos, if_pos hs₀]
        exact ih hmr hurest v
      · rw [writeMemos, if_neg hs₀]
        exact ih hmr hurest _
    · have hm₀ : m = m₀ := by
        rcases List.mem_cons.mp hm with h | h
        · exact h
        · exact absurd h hmr
      subst hm₀
      rw [writeMemos, if_neg (by simp [hs])]
      apply writeMemos_lookup_inv
      · intro m' hm' hs' hp
        rw [hu m' (List.mem_cons_of_mem _ hm') hs' hp]
      · exact lookupFile_setFile_self _ _ _

theorem writeMemos_mem_keys_mono (f : String) (l : Option Nat) (M : List Memo)
    (q : String) :
    ∀ v : Vault, q ∈ v.files.map Prod.fst →
      q ∈ (writeMemos f l M v).files.map Prod.fst := by
  induction M with
  | nil => intro v h; exact h
  | cons m rest ih =>
    intro v h
    by_cases hs : skipMemo l m = true
    · rw [writeMemos, if_pos hs]
      exact ih v h
    · rw [writeMemos, if_neg hs]
      exact ih _ ((mem_keys_setFile _ _ _ _).mpr (Or.inr h))

theorem writeMemos_key_mem (f : String) (l : Option Nat) (M : List Memo)
    (m : Memo) (hm : m ∈ M) (hs : skipMemo l m = false) :
    ∀ v : Vault, memoPath f m ∈ (writeMemos f l M v).files.map Prod.fst := by
  induction M with
  | nil => cases hm
  | cons m₀ rest ih =>
    intro v
    by_cases hmr : m ∈ rest
    · by_cases hs₀ : skipMemo l m₀ = true
      · rw [writeMemos, if_pos hs₀]
        exact ih hmr v
      · rw [writeMemos, if_neg hs₀]
        exact ih hmr _
    · have hm₀ : m = m₀ := by
        rcases List.mem_cons.mp hm with h | h
        · exact h
        · exact absurd h hmr
      subst hm₀
      rw [writeMemos, if_neg (by simp [hs])]
      exact writeMemos_mem_keys_mono f l rest _ _
        ((mem_keys_setFile _ _ _ _).mpr (Or.inl rfl))

theorem writeMemos_eq_self (f : String) (l : Option Nat) (M : List Memo)
    (v : Vault)
    (h : ∀ m ∈ M, skipMemo l m = false →
      lookupFile v.files (memoPath f m) = some (.text m.content)) :
    writeMemos f l M v = v := by
  induction M with
  | nil => rfl
  | cons m rest ih =>
    have hrest := fun m' hm' => h m' (List.mem_cons_of_mem _ hm')
    by_cases hs : skipMemo l m = true
    · rw [writeMemos, if_pos hs]
      exact ih hrest
    · rw [writeMemos, if_neg hs]
      have hw : v.write (memoPath f m) m.content = v := by
        show { v with
          files := setFile v.files (memoPath f m) (.text m.content) } = v
        rw [setFile_eq_self
          (h m (List.mem_cons_self m rest) (Bool.eq_false_iff.mpr hs))]
      rw [hw]
      exact ih hrest

theorem writeMemos_congr (f : String) (l₁ l₂ : Option Nat) (M : List Memo)
    (h : ∀ m : Memo, skipMemo l₁ m = skipMemo l₂ m) :
    ∀ v : Vault, writeMemos f l₁ M v = writeMemos f l₂ M v := by
  induction M with
  | nil => intro v; rfl
  | cons m rest ih =>
    intro v
    rw [writeMemos, writeMemos, h m]
    by_cases hs : skipMemo l₂ m = true
    · rw [if_pos hs, if_pos hs]
      exact ih v
    · rw [if_neg hs, if_neg hs]
      exact ih _

/-! ### Facts about the resource-write loop -/

theorem writeResources_folders (f : String) (R : List Resource) :
    ∀ v : Vault, (writeResources f R v).folders = v.folders := by
  induction R with
  | nil => intro v; rfl
  | cons r rest ih =>
    intro v
    by_cases hex : v.existsPath (resourcePath f r) = true
    · rw [writeResources, if_pos hex]
      exact ih v
    · rw [writeResources, if_neg hex, ih]
      rfl

theorem writeResources_lookup_some (f : String) (R : List Resource)
    (p : String) (c : FData) :
    ∀ v : Vault, lookupFile v.files p = some c →
      lookupFile (writeResources f R v).files p = some c := by
  induction R with
  | nil => intro v h; exact h
  | cons r rest ih =>
    intro v h
    by_cases hex : v.existsPath (resourcePath f r) = true
    · rw [writeResources, if_pos hex]
      exact ih v h
    · rw [writeResources, if_neg hex]
      apply ih
      have hk : resourcePath f r ∉ v.files.map Prod.fst := by
        intro hmem
        exact hex ((existsPath_iff v _).mpr (Or.inr hmem))
      have hne : p ≠ resourcePath f r := by
        intro he
        exact hk (he ▸ (mem_keys_iff_lookup v.files p).mpr ⟨c, h⟩)
      show lookupFile
        (setFile v.files (resourcePath f r) (.bin r.content)) p = some c
      rw [lookupFile_setFile_ne _ _ _ _ hne]
      exact h

theorem writeResources_lookup_of_ne (f : String) (R : List Resource)
    (p : String) (h : ∀ r ∈ R, resourcePath f r ≠ p) :
    ∀ v : Vault,
      lookupFile (writeResources f R v).files p = lookupFile v.files p := by
  induction R with
  | nil => intro v; rfl
  | cons r rest ih =>
    intro v
    have hrest := fun r' hr' => h r' (List.mem_cons_of_mem _ hr')
    by_cases hex : v.existsPath (resourcePath f r) = true
    · rw [writeResources, if_pos hex]
      exact ih hrest v
    · rw [writeResources, if_neg hex, ih hrest]
      exact lookupFile_setFile_ne _ _ _ _
        (Ne.symm (h r (List.mem_cons_self r rest)))

theorem writeResources_mem_keys_mono (f : String) (R : List Resource)
    (q : String) :
    ∀ v : Vault, q ∈ v.files.map Prod.fst →
      q ∈ (writeResources f R v).files.map Prod.fst := by
  induction R with
  | nil => intro v h; exact h
  | cons r rest ih =>
    intro v h
    by_cases hex : v.existsPath (resourcePath f r) = true
    · rw [writeResources, if_pos hex]
      exact ih v h
    · rw [writeResources, if_neg hex]
      exact ih _ ((mem_keys_setFile _ _ _ _).mpr (Or.inr h))

theorem writeResources_key_mem (f : String) (R : List Resource) (r : Resource)
    (hr : r ∈ R) :
    ∀ v : Vault, resourcePath f r ∉ v.folders →
      resourcePath f r ∈ (writeResources f R v).files.map Prod.fst := by
  induction R with
  | nil => cases hr
  | cons r₀ rest ih =>
    intro v hf
    by_cases hex : v.existsPath (resourcePath f r₀) = true
    · rw [writeResources, if_pos hex]
      rcases List.mem_cons.mp hr with h | h
      · subst h
        have hk : resourcePath f r ∈ v.files.map Prod.fst := by
          rcases (existsPath_iff v _).mp hex with h' | h'
          · exact absurd h' hf
          · exact h'
        exact writeResources_mem_keys_mono f rest _ v hk
      · exact ih h v hf
    · rw [writeResources, if_neg hex]
      rcases List.mem_cons.mp hr with h | h
      · subst h
        exact writeResources_mem_keys_mono f rest _ _
          ((mem_keys_setFile _ _ _ _).mpr (Or.inl rfl))
      · exact ih h _ hf

theorem writeResources_existsPath_mono (f : String) (R : List Resource)
    (p : String) (v : Vault) (hex : v.existsPath p = true) :
    (writeResources f R v).existsPath p = true := by
  rw [existsPath_iff] at hex ⊢
  rw [writeResources_folders]
  rcases hex with h | h
  · exact Or.inl h
  · exact Or.inr (writeResources_mem_keys_mono f R p v h)

theorem writeResources_existsPath_all (f : String) (R : List Resource)
    (r : Resource) (hr : r ∈ R) :
    ∀ v : Vault,
      (writeResources f R v).existsPath (resourcePath f r) = true := by
  induction R with
  | nil => cases hr
  | cons r₀ rest ih =>
    intro v
    by_cases hex : v.existsPath (resourcePath f r₀) = true
    · rw [writeResources, if_pos hex]
      rcases List.mem_cons.mp hr with h | h
      · subst h
        exact writeResources_existsPath_mono f rest _ v hex
      · exact ih h v
    · rw [writeResources, if_neg hex]
      rcases List.mem_cons.mp hr with h | h
      · subst h
        apply writeResources_existsPath_mono
        rw [existsPath_iff]
        exact Or.inr ((mem_keys_setFile _ _ _ _).mpr (Or.inl rfl))
      · exact ih h _

theorem writeResources_eq_self (f : String) (R : List Resource) (v : Vault)
    (h : ∀ r ∈ R, v.existsPath (resourcePath f r) = true) :
    writeResources f R v = v := by
  induction R with
  | nil => rfl
  | cons r rest ih =>
    rw [writeResources, if_pos (h r (List.mem_cons_self r rest))]
    exact ih (fun r' hr' => h r' (List.mem_cons_of_mem _ hr'))

/-! ### Facts about the orphan-deletion loop -/

theorem pruneFolder_folders (e L : List String) :
    ∀ v : Vault, (pruneFolder e L v).1.folders = v.folders := by
  induction L with
  | nil => intro v; rfl
  | cons p rest ih =>
    intro v
    by_cases hp : p ∈ e
    · rw [pruneFolder, if_pos hp]
      exact ih v
    · rw [pruneFolder, if_neg hp]
      exact ih _

theorem pruneFolder_snd (e L : List String) :
    ∀ v : Vault,
      (pruneFolder e L v).2 = L.filter (fun p => decide (¬ p ∈ e)) := by
  induction L with
  | nil => intro v; rfl
  | cons p rest ih =>
    intro v
    by_cases hp : p ∈ e
    · rw [pruneFolder, if_pos hp, ih v, List.filter_cons]
      simp [hp]
    · rw [pruneFolder, if_neg hp]
      show p :: (pruneFolder e rest (v.remove p)).2 = _
      rw [ih _, List.filter_cons]
      simp [hp]

theorem pruneFolder_lookup (e L : List String) (p : String)
    (hp : p ∈ e ∨ ¬ p ∈ L) :
    ∀ v : Vault,
      lookupFile (pruneFolder e L v).1.files p = lookupFile v.files p := by
  induction L with
  | nil => intro v; rfl
  | cons q rest ih =>
    intro v
    have hp' : p ∈ e ∨ ¬ p ∈ rest := by
      rcases hp with h | h
      · exact Or.inl h
      · exact Or.inr (fun hh => h (List.mem_cons_of_mem _ hh))
    by_cases hq : q ∈ e
    · rw [pruneFolder, if_pos hq]
      exact ih hp' v
    · rw [pruneFolder, if_neg hq]
      have hpq : p ≠ q := by
        rcases hp with h | h
        · intro he
          exact hq (he ▸ h)
        · intro he
          exact h (he ▸ List.mem_cons_self q rest)
      have : lookupFile (v.remove q).files p = lookupFile v.files p := by
        show lookupFile (v.files.filter (fun en => decide (en.1 ≠ q))) p
          = lookupFile v.files p
        exact lookupFile_filter v.files (fun k => decide (k ≠ q)) p
          (by simp [hpq])
      rw [ih hp' _, this]

theorem pruneFolder_mem_keys (e L : List String) (q : String) :
    ∀ v : Vault,
      q ∈ (pruneFolder e L v).1.files.map Prod.fst ↔
        q ∈ v.files.map Prod.fst ∧ (q ∈ e ∨ ¬ q ∈ L) := by
  induction L with
  | nil =>
    intro v
    rw [pruneFolder]
    simp
  | cons p rest ih =>
    intro v
    by_cases hp : p ∈ e
    · rw [pruneFolder, if_pos hp, ih v]
      constructor
      · rintro ⟨h1, h2⟩
        refine ⟨h1, ?_⟩
        rcases h2 with h | h
        · exact Or.inl h
        · by_cases hqp : q = p
          · exact Or.inl (hqp ▸ hp)
          · exact Or.inr (by simp [List.mem_cons, hqp, h])
      · rintro ⟨h1, h2⟩
        refine ⟨h1, ?_⟩
        rcases h2 with h | h
        · exact Or.inl h
        · exact Or.inr (fun hh => h (List.mem_cons_of_mem _ hh))
    · rw [pruneFolder, if_neg hp, ih _]
      have hrm : q ∈ (v.remove p).files.map Prod.fst ↔
          q ∈ v.files.map Prod.fst ∧ q ≠ p := by
        show q ∈ (v.files.filter (fun en => decide (en.1 ≠ p))).map Prod.fst ↔ _
        rw [mem_keys_filter v.files (fun k => decide (k ≠ p)) q]
        simp
      rw [hrm]
      constructor
      · rintro ⟨⟨h1, hqp⟩, h2⟩
        refine ⟨h1, ?_⟩
        rcases h2 with h | h
        · exact Or.inl h
        · exact Or.inr (by simp [List.mem_cons, hqp, h])
      · rintro ⟨h1, h2⟩
        rcases h2 with h | h
        · have hqp : q ≠ p := fun he => hp (he ▸ h)
          exact ⟨⟨h1, hqp⟩, Or.inl h⟩
        · have hqp : q ≠ p := fun he => h (he ▸ List.mem_cons_self p rest)
          exact ⟨⟨h1, hqp⟩, Or.inr (fun hh => h (List.mem_cons_of_mem _ hh))⟩

theorem pruneFolder_eq_of_subset (e L : List String) (v : Vault)
    (h : ∀ p ∈ L, p ∈ e) : pruneFolder e L v = (v, []) := by
  induction L with
  | nil => rfl
  | cons p rest ih =>
    rw [pruneFolder, if_pos (h p (List.mem_cons_self p rest))]
    exact ih (fun p' hp' => h p' (List.mem_cons_of_mem _ hp'))

/-! ### Facts about the composed run -/

theorem sync_ok_eq (s : Settings) (res : Snapshot) (now : Nat) (v : Vault)
    (h : ¬ s.openAPI = "") :
    sync s (.ok res) now v =
      { vault := finalVault s res v
        saved := some { s with lastSyncTime := some now }
        notices := ["Start syncing memos.", "Sync memos successfully."]
        fetchCalled := true
        memoDeleted := (pruneMemosStep s res (afterWrites s res v)).2
        resourceDeleted :=
          (pruneResourcesStep s res
            (pruneMemosStep s res (afterWrites s res v)).1).2 } := by
  rw [sync, if_neg h]

theorem finalVault_folders (s : Settings) (res : Snapshot) (v : Vault) :
    (finalVault s res v).folders = (ensureFolders s.folderToSync v).folders := by
  unfold finalVault pruneResourcesStep pruneMemosStep afterWrites
  rw [pruneFolder_folders, pruneFolder_folders, writeResources_folders,
    writeMemos_folders]

theorem lookup_finalVault_memo (s : Settings) (res : Snapshot) (v : Vault)
    (m : Memo) (hm : m ∈ res.memos)
    (hs : skipMemo s.lastSyncTime m = false)
    (hu : ∀ m' ∈ res.memos, skipMemo s.lastSyncTime m' = false →
      memoPath s.folderToSync m' = memoPath s.folderToSync m →
        m'.content = m.content) :
    lookupFile (finalVault s res v).files (memoPath s.folderToSync m)
      = some (.text m.content) := by
  have hmemb : memoPath s.folderToSync m ∈ memosInAPI s.folderToSync res :=
    List.mem_map_of_mem (memoPath s.folderToSync) hm
  unfold finalVault pruneResourcesStep pruneMemosStep
  rw [pruneFolder_lookup _ _ _ (Or.inr (fun hmem =>
    not_isChildOf_resourcesFolder_memoPath s.folderToSync m
      ((mem_list_iff _ _ _).mp hmem).2))]
  rw [pruneFolder_lookup _ _ _ (Or.inl hmemb)]
  unfold afterWrites
  rw [writeResources_lookup_of_ne _ _ _ (fun r _ =>
    Ne.symm (memoPath_ne_resourcePath s.folderToSync m r))]
  exact writeMemos_lookup_self _ _ _ m hm hs hu _

theorem lookup_finalVault_of_unwritten (s : Settings) (res : Snapshot)
    (v : Vault) (m : Memo) (hm : m ∈ res.memos)
    (hw : ∀ m' ∈ res.memos, skipMemo s.lastSyncTime m' = false →
      memoPath s.folderToSync m' ≠ memoPath s.folderToSync m) :
    lookupFile (finalVault s res v).files (memoPath s.folderToSync m)
      = lookupFile v.files (memoPath s.folderToSync m) := by
  have hmemb : memoPath s.folderToSync m ∈ memosInAPI s.folderToSync res :=
    List.mem_map_of_mem (memoPath s.folderToSync) hm
  unfold finalVault pruneResourcesStep pruneMemosStep
  rw [pruneFolder_lookup _ _ _ (Or.inr (fun hmem =>
    not_isChildOf_resourcesFolder_memoPath s.folderToSync m
      ((mem_list_iff _ _ _).mp hmem).2))]
  rw [pruneFolder_lookup _ _ _ (Or.inl hmemb)]
  unfold afterWrites
  rw [writeResources_lookup_of_ne _ _ _ (fun r _ =>
    Ne.symm (memoPath_ne_resourcePath s.folderToSync m r))]
  rw [writeMemos_lookup_of_ne _ _ _ _ hw]
  show lookupFile (ensureFolders s.folderToSync v).files _ = _
  rw [ensureFolders_files]

theorem lookup_finalVault_resource (s : Settings) (res : Snapshot) (v : Vault)
    (r : Resource) (hr : r ∈ res.resources) (c : FData)
    (hc : lookupFile v.files (resourcePath s.folderToSync r) = some c) :
    lookupFile (finalVault s res v).files (resourcePath s.folderToSync r)
      = some c := by
  have hmemb : resourcePath s.folderToSync r ∈ resourcesInAPI s.folderToSync res :=
    List.mem_map_of_mem (resourcePath s.folderToSync) hr
  unfold finalVault pruneResourcesStep pruneMemosStep
  rw [pruneFolder_lookup _ _ _ (Or.inl hmemb)]
  rw [pruneFolder_lookup _ _ _ (Or.inr (fun hmem =>
    not_isChildOf_memosFolder_resourcePath s.folderToSync r
      ((mem_list_iff _ _ _).mp hmem).2))]
  unfold afterWrites
  apply writeResources_lookup_some
  rw [writeMemos_lookup_of_ne _ _ _ _ (fun m _ _ =>
    memoPath_ne_resourcePath s.folderToSync m r)]
  show lookupFile (ensureFolders s.folderToSync v).files _ = some c
  rw [ensureFolders_files]
  exact hc

theorem mem_keys_finalVault (s : Settings) (res : Snapshot) (v : Vault)
    (q : String) :
    q ∈ (finalVault s res v).files.map Prod.fst ↔
      q ∈ (afterWrites s res v).files.map Prod.fst ∧
        (q ∈ memosInAPI s.folderToSync res ∨
          ¬ q ∈ (afterWrites s res v).list (memosFolder s.folderToSync)) ∧
        (q ∈ resourcesInAPI s.folderToSync res ∨
          ¬ q ∈ (pruneMemosStep s res (afterWrites s res v)).1.list
            (resourcesFolder s.folderToSync)) := by
  unfold finalVault pruneResourcesStep pruneMemosStep
  rw [pruneFolder_mem_keys, pruneFolder_mem_keys]
  tauto

theorem sync_ok_vault (s : Settings) (res : Snapshot) (now : Nat) (v : Vault)
    (h : ¬ s.openAPI = "") :
    (sync s (.ok res) now v).vault = finalVault s res v := by
  rw [sync_ok_eq _ _ _ _ h]

theorem sync_ok_saved (s : Settings) (res : Snapshot) (now : Nat) (v : Vault)
    (h : ¬ s.openAPI = "") :
    (sync s (.ok res) now v).saved = some { s with lastSyncTime := some now } := by
  rw [sync_ok_eq _ _ _ _ h]

theorem sync_ok_memoDeleted (s : Settings) (res : Snapshot) (now : Nat)
    (v : Vault) (h : ¬ s.openAPI = "") :
    (sync s (.ok res) now v).memoDeleted
      = (pruneMemosStep s res (afterWrites s res v)).2 := by
  rw [sync_ok_eq _ _ _ _ h]

theorem sync_ok_resourceDeleted (s : Settings) (res : Snapshot) (now : Nat)
    (v : Vault) (h : ¬ s.openAPI = "") :
    (sync s (.ok res) now v).resourceDeleted
      = (pruneResourcesStep s res
          (pruneMemosStep s res (afterWrites s res v)).1).2 := by
  rw [sync_ok_eq _ _ _ _ h]

theorem mem_keys_finalVault_memo (s : Settings) (res : Snapshot) (v : Vault)
    (m : Memo) (hm : m ∈ res.memos)
    (hs : skipMemo s.lastSyncTime m = false) :
    memoPath s.folderToSync m ∈ (finalVault s res v).files.map Prod.fst := by
  rw [mem_keys_finalVault]
  refine ⟨?_, Or.inl (List.mem_map_of_mem _ hm), Or.inr ?_⟩
  · unfold afterWrites
    exact writeResources_mem_keys_mono _ _ _ _
      (writeMemos_key_mem _ _ _ m hm hs _)
  · intro hmem
    exact not_isChildOf_resourcesFolder_memoPath s.folderToSync m
      ((mem_list_iff _ _ _).mp hmem).2

theorem mem_keys_finalVault_resource (s : Settings) (res : Snapshot)
    (v : Vault) (r : Resource) (hr : r ∈ res.resources)
    (hnf : ¬ resourcePath s.folderToSync r ∈ v.folders) :
    resourcePath s.folderToSync r
      ∈ (finalVault s res v).files.map Prod.fst := by
  rw [mem_keys_finalVault]
  refine ⟨?_, Or.inr ?_, Or.inl (List.mem_map_of_mem _ hr)⟩
  · unfold afterWrites
    apply writeResources_key_mem _ _ r hr
    rw [writeMemos_folders]
    intro hmem
    rcases mem_folders_ensureFolders hmem with h | h | h
    · exact hnf h
    · exact memosFolder_ne_resourcePath s.folderToSync r h.symm
    · exact resourcesFolder_ne_resourcePath s.folderToSync r h.symm
  · intro hmem
    exact not_isChildOf_memosFolder_resourcePath s.folderToSync r
      ((mem_list_iff _ _ _).mp hmem).2

theorem list_finalVault_memos_sub (s : Settings) (res : Snapshot) (v : Vault)
    (q : String)
    (hq : q ∈ (finalVault s res v).list (memosFolder s.folderToSync)) :
    q ∈ memosInAPI s.folderToSync res := by
  obtain ⟨hk, hchild⟩ := (mem_list_iff _ _ _).mp hq
  obtain ⟨hk4, hd, -⟩ := (mem_keys_finalVault s res v q).mp hk
  rcases hd with h | h
  · exact h
  · exact absurd ((mem_list_iff _ _ _).mpr ⟨hk4, hchild⟩) h

theorem list_finalVault_resources_sub (s : Settings) (res : Snapshot)
    (v : Vault) (q : String)
    (hq : q ∈ (finalVault s res v).list (resourcesFolder s.folderToSync)) :
    q ∈ resourcesInAPI s.folderToSync res := by
  obtain ⟨hk, hchild⟩ := (mem_list_iff _ _ _).mp hq
  have hk5 : q ∈ (pruneMemosStep s res
      (afterWrites s res v)).1.files.map Prod.fst ∧
      (q ∈ resourcesInAPI s.folderToSync res ∨
        ¬ q ∈ (pruneMemosStep s res (afterWrites s res v)).1.list
          (resourcesFolder s.folderToSync)) := by
    have := hk
    unfold finalVault pruneResourcesStep at this
    exact (pruneFolder_mem_keys _ _ _ _).mp this
  rcases hk5.2 with h | h
  · exact h
  · exact absurd ((mem_list_iff _ _ _).mpr ⟨hk5.1, hchild⟩) h

theorem existsPath_finalVault_resource (s : Settings) (res : Snapshot)
    (v : Vault) (r : Resource) (hr : r ∈ res.resources) :
    (finalVault s res v).existsPath (resourcePath s.folderToSync r) = true := by
  have h4 : (afterWrites s res v).existsPath
      (resourcePath s.folderToSync r) = true := by
    unfold afterWrites
    exact writeResources_existsPath_all _ _ r hr _
  rw [existsPath_iff] at h4 ⊢
  rcases h4 with h | h
  · left
    rw [finalVault_folders]
    unfold afterWrites at h
    rw [writeResources_folders, writeMemos_folders] at h
    exact h
  · right
    rw [mem_keys_finalVault]
    refine ⟨h, Or.inr ?_, Or.inl (List.mem_map_of_mem _ hr)⟩
    intro hmem
    exact not_isChildOf_memosFolder_resourcePath s.folderToSync r
      ((mem_list_iff _ _ _).mp hmem).2

theorem existsPath_finalVault_folder (s : Settings) (res : Snapshot)
    (v : Vault) (p : String)
    (hp : (ensureFolders s.folderToSync v).existsPath p = true)
    (hnm : ¬ isChildOf (memosFolder s.folderToSync) p = true)
    (hnr : ¬ isChildOf (resourcesFolder s.folderToSync) p = true) :
    (finalVault s res v).existsPath p = true := by
  rw [existsPath_iff] at hp ⊢
  rcases hp with h | h
  · left
    rw [finalVault_folders]
    exact h
  · right
    rw [mem_keys_finalVault]
    refine ⟨?_, Or.inr ?_, Or.inr ?_⟩
    · unfold afterWrites
      exact writeResources_mem_keys_mono _ _ _ _
        (writeMemos_mem_keys_mono _ _ _ _ _ h)
    · intro hmem
      exact hnm ((mem_list_iff _ _ _).mp hmem).2
    · intro hmem
      exact hnr ((mem_list_iff _ _ _).mp hmem).2

theorem existsPath_finalVault_memosFolder (s : Settings) (res : Snapshot)
    (v : Vault) :
    (finalVault s res v).existsPath (memosFolder s.folderToSync) = true :=
  existsPath_finalVault_folder s res v _
    (existsPath_ensureFolders_memos _ v)
    (not_isChildOf_self _)
    (not_isChildOf_resourcesFolder_memosFolder _)

theorem existsPath_finalVault_resourcesFolder (s : Settings) (res : Snapshot)
    (v : Vault) :
    (finalVault s res v).existsPath (resourcesFolder s.folderToSync) = true :=
  existsPath_finalVault_folder s res v _
    (existsPath_ensureFolders_resources _ v)
    (not_isChildOf_memosFolder_resourcesFolder _)
    (not_isChildOf_self _)

/-! ### Facts about the instrumented (store-error) model -/

theorem syncF_ok_eq (s : Settings) (res : Snapshot) (now : Nat) (v : Vault)
    (failing : List String) (h : ¬ s.openAPI = "") :
    syncF s (.ok res) now v failing =
      { vault := finalVaultF s res v failing
        saved := some { s with lastSyncTime := some now }
        notices := ["Start syncing memos.", "Sync memos successfully."]
        fetchCalled := true
        memoDeleted := (pruneMemosStep s res (afterWritesF s res v failing)).2
        resourceDeleted :=
          (pruneResourcesStep s res
            (pruneMemosStep s res (afterWritesF s res v failing)).1).2 } := by
  rw [syncF, if_neg h]

theorem writeMemosF_lookup_inv (f : String) (l : Option Nat)
    (failing : List String) (M : List Memo) (p : String) (d : FData)
    (h : ∀ m ∈ M, skipMemo l m = false → ¬ memoPath f m ∈ failing →
      memoPath f m = p → FData.text m.content = d) :
    ∀ v : Vault, lookupFile v.files p = some d →
      lookupFile (writeMemosF f l failing M v).files p = some d := by
  induction M with
  | nil => intro v h0; exact h0
  | cons m rest ih =>
    intro v h0
    have hrest := fun m' hm' => h m' (List.mem_cons_of_mem _ hm')
    by_cases hs : skipMemo l m = true
    · rw [writeMemosF, if_pos hs]
      exact ih hrest v h0
    · by_cases hf : memoPath f m ∈ failing
      · rw [writeMemosF, if_neg hs, if_pos hf]
        exact ih hrest v h0
      · rw [writeMemosF, if_neg hs, if_neg hf]
        apply ih hrest
        by_cases hp : memoPath f m = p
        · have hd := h m (List.mem_cons_self m rest)
            (Bool.eq_false_iff.mpr hs) hf hp
          show lookupFile (setFile v.files (memoPath f m) (.text m.content)) p
            = some d
          rw [hp, lookupFile_setFile_self, hd]
        · show lookupFile (setFile v.files (memoPath f m) (.text m.content)) p
            = some d
          rw [lookupFile_setFile_ne _ _ _ _ (fun he => hp he.symm)]
          exact h0

theorem writeMemosF_lookup_self (f : String) (l : Option Nat)
    (failing : List String) (M : List Memo) (m : Memo)
    (hm : m ∈ M) (hs : skipMemo l m = false)
    (hnf : ¬ memoPath f m ∈ failing)
    (hu : ∀ m' ∈ M, skipMemo l m' = false → ¬ memoPath f m' ∈ failing →
      memoPath f m' = memoPath f m → m'.content = m.content) :
    ∀ v : Vault,
      lookupFile (writeMemosF f l failing M v).files (memoPath f m)
        = some (.text m.content) := by
  induction M with
  | nil => cases hm
  | cons m₀ rest ih =>
    intro v
    have hurest := fun m' hm' => hu m' (List.mem_cons_of_mem _ hm')
    by_cases hmr : m ∈ rest
    · by_cases hs₀ : skipMemo l m₀ = true
      · rw [writeMemosF, if_pos hs₀]
        exact ih hmr hurest v
      · by_cases hf₀ : memoPath f m₀ ∈ failing
        · rw [writeMemosF, if_neg hs₀, if_pos hf₀]
          exact ih hmr hurest v
        · rw [writeMemosF, if_neg hs₀, if_neg hf₀]
          exact ih hmr hurest _
    · have hm₀ : m = m₀ := by
        rcases List.mem_cons.mp hm with h | h
        · exact h
        · exact absurd h hmr
      subst hm₀
      rw [writeMemosF, if_neg (by simp [hs]), if_neg hnf]
      apply writeMemosF_lookup_inv
      · intro m' hm' hs' hf' hp
        rw [hu m' (List.mem_cons_of_mem _ hm') hs' hf' hp]
      · exact lookupFile_setFile_self _ _ _

theorem lookup_finalVaultF_memo (s : Settings) (res : Snapshot) (v : Vault)
    (failing : List String) (m : Memo) (hm : m ∈ res.memos)
    (hs : skipMemo s.lastSyncTime m = false)
    (hnf : ¬ memoPath s.folderToSync m ∈ failing)
    (hu : ∀ m' ∈ res.memos, skipMemo s.lastSyncTime m' = false →
      ¬ memoPath s.folderToSync m' ∈ failing →
      memoPath s.folderToSync m' = memoPath s.folderToSync m →
        m'.content = m.content) :
    lookupFile (finalVaultF s res v failing).files (memoPath s.folderToSync m)
      = some (.text m.content) := by
  have hmemb : memoPath s.folderToSync m ∈ memosInAPI s.folderToSync res :=
    List.mem_map_of_mem (memoPath s.folderToSync) hm
  unfold finalVaultF pruneResourcesStep pruneMemosStep
  rw [pruneFolder_lookup _ _ _ (Or.inr (fun hmem =>
    not_isChildOf_resourcesFolder_memoPath s.folderToSync m
      ((mem_list_iff _ _ _).mp hmem).2))]
  rw [pruneFolder_lookup _ _ _ (Or.inl hmemb)]
  unfold afterWritesF
  rw [writeResources_lookup_of_ne _ _ _ (fun r _ =>
    Ne.symm (memoPath_ne_resourcePath s.folderToSync m r))]
  exact writeMemosF_lookup_self _ _ _ _ m hm hs hnf hu _

/-! ## The claims -/

/-- Claim C8: a run started with an empty credential string reports the
configuration message and halts before any network or file activity: the
fetch is not invoked, no file or folder is touched, and nothing is
saved. -/
theorem empty_credential_halts (s : Settings) (f : Except String Snapshot)
    (now : Nat) (v : Vault) (h : s.openAPI = "") :
    sync s f now v =
      { vault := v, saved := none
        notices := ["Please enter your OpenAPI key."]
        fetchCalled := false, memoDeleted := [], resourceDeleted := [] } := by
  rw [sync.eq_def, if_pos h]

/-- Witness for claim C8 at concrete inputs. -/
theorem empty_credential_halts_witness :
    ({ wSettings with openAPI := "" } : Settings).openAPI = "" ∧
    sync { wSettings with openAPI := "" } (.ok wSnap) 5 wVaultSeeded =
      { vault := wVaultSeeded, saved := none
        notices := ["Please enter your OpenAPI key."]
        fetchCalled := false, memoDeleted := [], resourceDeleted := [] } :=
  ⟨rfl, empty_credential_halts _ _ _ _ rfl⟩

/-- Claim C5: when the fetch call fails, the run is fail-fast and atomic:
the vault is left exactly as it was (no file or folder created, modified
or deleted), nothing is saved (so the persisted `lastSyncTime` is
unchanged), and the generic failure message is reported. -/
theorem fetch_error_fail_fast (s : Settings) (err : String) (now : Nat)
    (v : Vault) (h : ¬ s.openAPI = "") :
    sync s (.error err) now v =
      { vault := v, saved := none
        notices := ["Start syncing memos.",
          "Failed to sync memos. Please check your OpenAPI key and network."]
        fetchCalled := true, memoDeleted := [], resourceDeleted := [] } := by
  rw [sync, if_neg h]

/-- Witness for claim C5 at concrete inputs. -/
theorem fetch_error_fail_fast_witness :
    ¬ wSettings.openAPI = "" ∧
    sync wSettings (.error "network down") 5 wVaultSeeded =
      { vault := wVaultSeeded, saved := none
        notices := ["Start syncing memos.",
          "Failed to sync memos. Please check your OpenAPI key and network."]
        fetchCalled := true, memoDeleted := [], resourceDeleted := [] } :=
  ⟨by decide, fetch_error_fail_fast _ _ _ _ (by decide)⟩

/-- Claim C7: a fully successful run saves settings whose `lastSyncTime`
is the completion time and whose other fields (credential, folder, debug
flag) are unchanged; a fetch-error run and an empty-credential run save
nothing. -/
theorem checkpoint_persistence (s : Settings) (res : Snapshot) (now : Nat)
    (v : Vault) (h : ¬ s.openAPI = "") :
    (∃ ss : Settings, (sync s (.ok res) now v).saved = some ss ∧
      ss.lastSyncTime = some now ∧ ss.openAPI = s.openAPI ∧
      ss.folderToSync = s.folderToSync ∧ ss.debug = s.debug) ∧
    (∀ err : String, (sync s (.error err) now v).saved = none) ∧
    (∀ s' : Settings, ∀ f : Except String Snapshot, s'.openAPI = "" →
      (sync s' f now v).saved = none) := by
  refine ⟨⟨{ s with lastSyncTime := some now },
    sync_ok_saved _ _ _ _ h, rfl, rfl, rfl, rfl⟩, ?_, ?_⟩
  · intro err
    rw [sync, if_neg h]
  · intro s' f h'
    rw [sync.eq_def, if_pos h']

/-- Witness for claim C7 at concrete inputs. -/
theorem checkpoint_persistence_witness :
    ¬ wSettings.openAPI = "" ∧
    ((∃ ss : Settings, (sync wSettings (.ok wSnap) 5 wVault).saved = some ss ∧
      ss.lastSyncTime = some 5 ∧ ss.openAPI = wSettings.openAPI ∧
      ss.folderToSync = wSettings.folderToSync ∧ ss.debug = wSettings.debug) ∧
    (∀ err : String, (sync wSettings (.error err) 5 wVault).saved = none) ∧
    (∀ s' : Settings, ∀ f : Except String Snapshot, s'.openAPI = "" →
      (sync s' f 5 wVault).saved = none)) :=
  ⟨by decide, checkpoint_persistence wSettings wSnap 5 wVault (by decide)⟩

/-- Claim C2: with a stored checkpoint `lastSyncTime = T`, a memo whose
`updatedAt * 1000` is below `T` is skipped: its target file is not
written, so its content after the run equals its content before the run
(memo ids are unique in a snapshot, per the data model). -/
theorem skip_correctness (s : Settings) (res : Snapshot) (now : Nat)
    (v : Vault) (T : Nat) (m : Memo)
    (hapi : ¬ s.openAPI = "") (hT : s.lastSyncTime = some T)
    (hm : m ∈ res.memos) (hold : m.updatedTs * 1000 < T)
    (hids : (res.memos.map Memo.id).Nodup) :
    lookupFile (sync s (.ok res) now v).vault.files
        (memoPath s.folderToSync m)
      = lookupFile v.files (memoPath s.folderToSync m) := by
  rw [sync_ok_vault _ _ _ _ hapi]
  apply lookup_finalVault_of_unwritten _ _ _ _ hm
  intro m' hm' hs' he
  have hmm : m' = m :=
    List.inj_on_of_nodup_map hids hm' hm (memoPath_inj he)
  subst hmm
  rw [hT] at hs'
  have hT0 : T ≠ 0 := by omega
  simp [skipMemo, hold, hT0] at hs'

/-- Witness for claim C2 at concrete inputs: the pre-seeded stale file
content survives the run. -/
theorem skip_correctness_witness :
    (¬ ({ wSettings with lastSyncTime := some 5000 } : Settings).openAPI = ""
      ∧ ({ wSettings with lastSyncTime := some 5000 } : Settings).lastSyncTime
          = some 5000
      ∧ wMemo ∈ wSnap.memos ∧ wMemo.updatedTs * 1000 < 5000
      ∧ (wSnap.memos.map Memo.id).Nodup) ∧
    lookupFile
        (sync { wSettings with lastSyncTime := some 5000 } (.ok wSnap) 9
          wVaultSeeded).vault.files
        (memoPath "f" wMemo)
      = lookupFile wVaultSeeded.files (memoPath "f" wMemo) :=
  ⟨by decide,
    skip_correctness { wSettings with lastSyncTime := some 5000 } wSnap 9
      wVaultSeeded 5000 wMemo (by decide) (by decide) (by decide) (by decide)
      (by decide)⟩

/-- Claim C4: a resource whose file already exists before the run is never
overwritten — its content after the run equals its content before the run
even when the remote content differs; only missing resource files are
created. -/
theorem resource_write_once (s : Settings) (res : Snapshot) (now : Nat)
    (v : Vault) (r : Resource) (c : FData)
    (hapi : ¬ s.openAPI = "") (hr : r ∈ res.resources)
    (hc : lookupFile v.files (resourcePath s.folderToSync r) = some c) :
    lookupFile (sync s (.ok res) now v).vault.files
        (resourcePath s.folderToSync r)
      = some c := by
  rw [sync_ok_vault _ _ _ _ hapi]
  exact lookup_finalVault_resource s res v r hr c hc

/-- Witness for claim C4 at concrete inputs: the pre-seeded binary
content `[9]` survives although the remote content is `[1, 2]`. -/
theorem resource_write_once_witness :
    (¬ wSettings.openAPI = "" ∧ wRes ∈ wSnap.resources
      ∧ lookupFile wVaultSeeded.files (resourcePath "f" wRes)
          = some (.bin [9])) ∧
    lookupFile (sync wSettings (.ok wSnap) 9 wVaultSeeded).vault.files
        (resourcePath "f" wRes)
      = some (.bin [9]) :=
  ⟨by decide,
    resource_write_once wSettings wSnap 9 wVaultSeeded wRes (.bin [9])
      (by decide) (by decide) (by decide)⟩

/-- Claim C3: the memo-pruning loop deletes exactly the paths of the
memos-folder listing that are not expected memo paths, the
resource-pruning loop deletes exactly the paths of the resources-folder
listing that are not expected resource paths, each loop deletes only
direct children of its own folder, and neither ever deletes a path of the
other kind. -/
theorem orphan_pruning (s : Settings) (res : Snapshot) (now : Nat)
    (v : Vault) (hapi : ¬ s.openAPI = "") :
    (sync s (.ok res) now v).memoDeleted
      = ((afterWrites s res v).list (memosFolder s.folderToSync)).filter
          (fun p => decide (¬ p ∈ memosInAPI s.folderToSync res)) ∧
    (sync s (.ok res) now v).resourceDeleted
      = ((pruneMemosStep s res (afterWrites s res v)).1.list
          (resourcesFolder s.folderToSync)).filter
          (fun p => decide (¬ p ∈ resourcesInAPI s.folderToSync res)) ∧
    (∀ p ∈ (sync s (.ok res) now v).memoDeleted,
      isChildOf (memosFolder s.folderToSync) p = true ∧
      ∀ r ∈ res.resources, p ≠ resourcePath s.folderToSync r) ∧
    (∀ p ∈ (sync s (.ok res) now v).resourceDeleted,
      isChildOf (resourcesFolder s.folderToSync) p = true ∧
      ∀ m ∈ res.memos, p ≠ memoPath s.folderToSync m) := by
  have h1 : (sync s (.ok res) now v).memoDeleted
      = ((afterWrites s res v).list (memosFolder s.folderToSync)).filter
          (fun p => decide (¬ p ∈ memosInAPI s.folderToSync res)) := by
    rw [sync_ok_memoDeleted _ _ _ _ hapi]
    unfold pruneMemosStep
    rw [pruneFolder_snd]
  have h2 : (sync s (.ok res) now v).resourceDeleted
      = ((pruneMemosStep s res (afterWrites s res v)).1.list
          (resourcesFolder s.folderToSync)).filter
          (fun p => decide (¬ p ∈ resourcesInAPI s.folderToSync res)) := by
    rw [sync_ok_resourceDeleted _ _ _ _ hapi]
    unfold pruneResourcesStep
    rw [pruneFolder_snd]
  refine ⟨h1, h2, ?_, ?_⟩
  · intro p hp
    rw [h1, List.mem_filter] at hp
    have hchild := ((mem_list_iff _ _ _).mp hp.1).2
    exact ⟨hchild, fun r _ he =>
      not_isChildOf_memosFolder_resourcePath s.folderToSync r (he ▸ hchild)⟩
  · intro p hp
    rw [h2, List.mem_filter] at hp
    have hchild := ((mem_list_iff _ _ _).mp hp.1).2
    exact ⟨hchild, fun m _ he =>
      not_isChildOf_resourcesFolder_memoPath s.folderToSync m (he ▸ hchild)⟩

/-- Witness for claim C3 at concrete inputs (the seeded vault contains an
orphan memo file that is deleted). -/
theorem orphan_pruning_witness :
    ¬ wSettings.openAPI = "" ∧
    ((sync wSettings (.ok wSnap) 9 wVaultSeeded).memoDeleted
      = ((afterWrites wSettings wSnap wVaultSeeded).list
          (memosFolder "f")).filter
          (fun p => decide (¬ p ∈ memosInAPI "f" wSnap)) ∧
    (sync wSettings (.ok wSnap) 9 wVaultSeeded).resourceDeleted
      = ((pruneMemosStep wSettings wSnap
          (afterWrites wSettings wSnap wVaultSeeded)).1.list
          (resourcesFolder "f")).filter
          (fun p => decide (¬ p ∈ resourcesInAPI "f" wSnap)) ∧
    (∀ p ∈ (sync wSettings (.ok wSnap) 9 wVaultSeeded).memoDeleted,
      isChildOf (memosFolder "f") p = true ∧
      ∀ r ∈ wSnap.resources, p ≠ resourcePath "f" r) ∧
    (∀ p ∈ (sync wSettings (.ok wSnap) 9 wVaultSeeded).resourceDeleted,
      isChildOf (resourcesFolder "f") p = true ∧
      ∀ m ∈ wSnap.memos, p ≠ memoPath "f" m)) :=
  ⟨by decide, orphan_pruning wSettings wSnap 9 wVaultSeeded (by decide)⟩

/-- Claim C1: convergence.  For a well-formed snapshot (unique,
slash-free memo ids and resource filenames, per the data model) and no
stored checkpoint, a successful run leaves the memos-folder listing equal
to the set of expected memo paths with each memo file holding that memo's
remote content, and the resources-folder listing equal to the set of
expected resource paths (assuming no pre-existing folder occupies a
resource path, so that the existence check sees files only). -/
theorem convergence (s : Settings) (res : Snapshot) (now : Nat) (v : Vault)
    (hapi : ¬ s.openAPI = "") (hlst : s.lastSyncTime = none)
    (hids : (res.memos.map Memo.id).Nodup)
    (hslashm : ∀ m ∈ res.memos, ¬ '/' ∈ m.id.data)
    (hslashr : ∀ r ∈ res.resources, ¬ '/' ∈ r.filename.data)
    (hnf : ∀ r ∈ res.resources,
      ¬ resourcePath s.folderToSync r ∈ v.folders) :
    (∀ m ∈ res.memos,
      lookupFile (sync s (.ok res) now v).vault.files
          (memoPath s.folderToSync m)
        = some (.text m.content)) ∧
    (∀ q : String,
      q ∈ (sync s (.ok res) now v).vault.list (memosFolder s.folderToSync) ↔
        ∃ m ∈ res.memos, q = memoPath s.folderToSync m) ∧
    (∀ q : String,
      q ∈ (sync s (.ok res) now v).vault.list
          (resourcesFolder s.folderToSync) ↔
        ∃ r ∈ res.resources, q = resourcePath s.folderToSync r) := by
  rw [sync_ok_vault _ _ _ _ hapi]
  have hskip : ∀ m : Memo, skipMemo s.lastSyncTime m = false := by
    intro m
    rw [hlst]
    rfl
  refine ⟨?_, ?_, ?_⟩
  · intro m hm
    apply lookup_finalVault_memo s res v m hm (hskip m)
    intro m' hm' _ he
    rw [List.inj_on_of_nodup_map hids hm' hm (memoPath_inj he)]
  · intro q
    constructor
    · intro hq
      obtain ⟨m, hm, he⟩ := List.mem_map.mp
        (list_finalVault_memos_sub s res v q hq)
      exact ⟨m, hm, he.symm⟩
    · rintro ⟨m, hm, rfl⟩
      exact (mem_list_iff _ _ _).mpr
        ⟨mem_keys_finalVault_memo s res v m hm (hskip m),
          isChildOf_memosFolder_memoPath s.folderToSync m (hslashm m hm)⟩
  · intro q
    constructor
    · intro hq
      obtain ⟨r, hr, he⟩ := List.mem_map.mp
        (list_finalVault_resources_sub s res v q hq)
      exact ⟨r, hr, he.symm⟩
    · rintro ⟨r, hr, rfl⟩
      exact (mem_list_iff _ _ _).mpr
        ⟨mem_keys_finalVault_resource s res v r hr (hnf r hr),
          isChildOf_resourcesFolder_resourcePath s.folderToSync r
            (hslashr r hr)⟩

/-- Witness for claim C1 at concrete inputs. -/
theorem convergence_witness :
    (¬ wSettings.openAPI = "" ∧ wSettings.lastSyncTime = none
      ∧ (wSnap.memos.map Memo.id).Nodup
      ∧ (∀ m ∈ wSnap.memos, ¬ '/' ∈ m.id.data)
      ∧ (∀ r ∈ wSnap.resources, ¬ '/' ∈ r.filename.data)
      ∧ (∀ r ∈ wSnap.resources,
          ¬ resourcePath "f" r ∈ wVaultSeeded.folders)) ∧
    ((∀ m ∈ wSnap.memos,
      lookupFile (sync wSettings (.ok wSnap) 9 wVaultSeeded).vault.files
          (memoPath "f" m)
        = some (.text m.content)) ∧
    (∀ q : String,
      q ∈ (sync wSettings (.ok wSnap) 9 wVaultSeeded).vault.list
          (memosFolder "f") ↔
        ∃ m ∈ wSnap.memos, q = memoPath "f" m) ∧
    (∀ q : String,
      q ∈ (sync wSettings (.ok wSnap) 9 wVaultSeeded).vault.list
          (resourcesFolder "f") ↔
        ∃ r ∈ wSnap.resources, q = resourcePath "f" r)) :=
  ⟨by decide,
    convergence wSettings wSnap 9 wVaultSeeded (by decide) (by decide)
      (by decide) (by decide) (by decide) (by decide)⟩

/-- Claim C9: idempotence.  With no checkpoint and unique memo ids,
running the reconciliation a second time against the same snapshot from
the state the first run produced changes nothing: the vault is identical
and the second run deletes no path at all. -/
theorem idempotence (s : Settings) (res : Snapshot) (now now2 : Nat)
    (v : Vault)
    (hapi : ¬ s.openAPI = "") (hlst : s.lastSyncTime = none)
    (hids : (res.memos.map Memo.id).Nodup) :
    (sync s (.ok res) now2 (sync s (.ok res) now v).vault).vault
      = (sync s (.ok res) now v).vault ∧
    (sync s (.ok res) now2 (sync s (.ok res) now v).vault).memoDeleted
      = [] ∧
    (sync s (.ok res) now2 (sync s (.ok res) now v).vault).resourceDeleted
      = [] := by
  have hskip : ∀ m : Memo, skipMemo s.lastSyncTime m = false := by
    intro m
    rw [hlst]
    rfl
  have hv : (sync s (.ok res) now v).vault = finalVault s res v :=
    sync_ok_vault _ _ _ _ hapi
  rw [hv]
  have hcontent : ∀ m ∈ res.memos,
      lookupFile (finalVault s res v).files (memoPath s.folderToSync m)
        = some (.text m.content) := by
    intro m hm
    apply lookup_finalVault_memo s res v m hm (hskip m)
    intro m' hm' _ he
    rw [List.inj_on_of_nodup_map hids hm' hm (memoPath_inj he)]
  have hA : afterWrites s res (finalVault s res v) = finalVault s res v := by
    unfold afterWrites
    rw [ensureFolders_eq_self (existsPath_finalVault_memosFolder s res v)
      (existsPath_finalVault_resourcesFolder s res v)]
    rw [writeMemos_eq_self _ _ _ _ (fun m hm _ => hcontent m hm)]
    exact writeResources_eq_self _ _ _
      (fun r hr => existsPath_finalVault_resource s res v r hr)
  have hB : pruneMemosStep s res (finalVault s res v)
      = (finalVault s res v, []) := by
    unfold pruneMemosStep
    exact pruneFolder_eq_of_subset _ _ _
      (fun p hp => list_finalVault_memos_sub s res v p hp)
  have hC : pruneResourcesStep s res (finalVault s res v)
      = (finalVault s res v, []) := by
    unfold pruneResourcesStep
    exact pruneFolder_eq_of_subset _ _ _
      (fun p hp => list_finalVault_resources_sub s res v p hp)
  refine ⟨?_, ?_, ?_⟩
  · rw [sync_ok_vault _ _ _ _ hapi]
    show (pruneResourcesStep s res
      (pruneMemosStep s res
        (afterWrites s res (finalVault s res v))).1).1 = finalVault s res v
    rw [hA, hB]
    show (pruneResourcesStep s res (finalVault s res v)).1 = _
    rw [hC]
  · rw [sync_ok_memoDeleted _ _ _ _ hapi, hA, hB]
  · rw [sync_ok_resourceDeleted _ _ _ _ hapi, hA, hB]
    show (pruneResourcesStep s res (finalVault s res v)).2 = []
    rw [hC]

/-- Witness for claim C9 at concrete inputs. -/
theorem idempotence_witness :
    (¬ wSettings.openAPI = "" ∧ wSettings.lastSyncTime = none
      ∧ (wSnap.memos.map Memo.id).Nodup) ∧
    ((sync wSettings (.ok wSnap) 11
        (sync wSettings (.ok wSnap) 9 wVaultSeeded).vault).vault
      = (sync wSettings (.ok wSnap) 9 wVaultSeeded).vault ∧
    (sync wSettings (.ok wSnap) 11
        (sync wSettings (.ok wSnap) 9 wVaultSeeded).vault).memoDeleted
      = [] ∧
    (sync wSettings (.ok wSnap) 11
        (sync wSettings (.ok wSnap) 9 wVaultSeeded).vault).resourceDeleted
      = []) :=
  ⟨by decide,
    idempotence wSettings wSnap 9 11 wVaultSeeded (by decide) (by decide)
      (by decide)⟩

/-- Claim C10: a stored checkpoint equal to `0` behaves exactly as an
absent one, because the guard tests the truthiness of `lastSyncTime`: the
whole run result is identical to the run with no checkpoint, and no memo
is skipped. -/
theorem zero_checkpoint_as_absent (s : Settings) (f : Except String Snapshot)
    (now : Nat) (v : Vault) (h : s.lastSyncTime = some 0) :
    sync s f now v = sync { s with lastSyncTime := none } f now v ∧
    ∀ m : Memo, skipMemo s.lastSyncTime m = false := by
  have hskip : ∀ m : Memo, skipMemo s.lastSyncTime m = false := by
    intro m
    rw [h]
    rfl
  refine ⟨?_, hskip⟩
  by_cases hapi : s.openAPI = ""
  · rw [empty_credential_halts _ _ _ _ hapi,
      empty_credential_halts { s with lastSyncTime := none } _ _ _ hapi]
  · cases f with
    | error e =>
      rw [fetch_error_fail_fast _ _ _ _ hapi,
        fetch_error_fail_fast { s with lastSyncTime := none } _ _ _ hapi]
    | ok res =>
      rw [sync_ok_eq _ _ _ _ hapi,
        sync_ok_eq { s with lastSyncTime := none } _ _ _ hapi]
      have hw : writeMemos s.folderToSync s.lastSyncTime res.memos
          (ensureFolders s.folderToSync v)
          = writeMemos s.folderToSync none res.memos
            (ensureFolders s.folderToSync v) :=
        writeMemos_congr _ _ _ _ (fun m => by rw [hskip m]; rfl) _
      have haw : afterWrites s res v
          = afterWrites { s with lastSyncTime := none } res v := by
        unfold afterWrites
        rw [hw]
      unfold finalVault pruneResourcesStep pruneMemosStep
      rw [haw]

/-- Witness for claim C10 at concrete inputs. -/
theorem zero_checkpoint_as_absent_witness :
    ({ wSettings with lastSyncTime := some 0 } : Settings).lastSyncTime
        = some 0 ∧
    (sync { wSettings with lastSyncTime := some 0 } (.ok wSnap) 9 wVaultSeeded
      = sync { { wSettings with lastSyncTime := some 0 } with
          lastSyncTime := none } (.ok wSnap) 9 wVaultSeeded ∧
    ∀ m : Memo,
      skipMemo ({ wSettings with lastSyncTime := some 0 } : Settings).lastSyncTime m
        = false) :=
  ⟨rfl,
    zero_checkpoint_as_absent { wSettings with lastSyncTime := some 0 }
      (.ok wSnap) 9 wVaultSeeded rfl⟩

/-- Counterexample to claim C6 as stated.  The memo writes are
fire-and-forget (`adapter.write` is invoked without `await` and with no
per-item handler), so a failing memo write is NOT caught at the item
boundary and NOT logged: with the write of memo `a` rejecting, the run's
complete user-facing output is the plain success message, no failure is
reported anywhere, and the failed memo's file is silently absent. -/
theorem store_error_not_logged_cex :
    lookupFile (syncF wSettings (.ok wSnap) 9 wVault
        [memoPath "f" wMemo]).vault.files (memoPath "f" wMemo) = none ∧
    lookupFile (syncF wSettings (.ok wSnap) 9 wVault
        [memoPath "f" wMemo]).vault.files (memoPath "f" wMemo2)
      = some (.text wMemo2.content) ∧
    (syncF wSettings (.ok wSnap) 9 wVault [memoPath "f" wMemo]).notices
      = ["Start syncing memos.", "Sync memos successfully."] ∧
    (syncF wSettings (.ok wSnap) 9 wVault [memoPath "f" wMemo]).saved
      = some { wSettings with lastSyncTime := some 9 } := by
  decide

/-- Claim C6 (amended): an individual memo-write store error is dropped,
not caught or logged — the write is fire-and-forget, so the error
surfaces nowhere: the run still reports plain success, every other
non-skipped, non-failing memo is still written with its remote content,
and the `lastSyncTime` checkpoint is still persisted. -/
theorem store_error_best_effort (s : Settings) (res : Snapshot) (now : Nat)
    (v : Vault) (failing : List String)
    (hapi : ¬ s.openAPI = "") (hids : (res.memos.map Memo.id).Nodup) :
    (syncF s (.ok res) now v failing).saved
      = some { s with lastSyncTime := some now } ∧
    (syncF s (.ok res) now v failing).notices
      = ["Start syncing memos.", "Sync memos successfully."] ∧
    ∀ m ∈ res.memos, skipMemo s.lastSyncTime m = false →
      ¬ memoPath s.folderToSync m ∈ failing →
      lookupFile (syncF s (.ok res) now v failing).vault.files
          (memoPath s.folderToSync m)
        = some (.text m.content) := by
  rw [syncF_ok_eq _ _ _ _ _ hapi]
  refine ⟨rfl, rfl, ?_⟩
  intro m hm hs hnf
  apply lookup_finalVaultF_memo s res v failing m hm hs hnf
  intro m' hm' _ _ he
  rw [List.inj_on_of_nodup_map hids hm' hm (memoPath_inj he)]

/-- Witness for the amended claim C6 at concrete inputs. -/
theorem store_error_best_effort_witness :
    (¬ wSettings.openAPI = "" ∧ (wSnap.memos.map Memo.id).Nodup) ∧
    ((syncF wSettings (.ok wSnap) 9 wVault [memoPath "f" wMemo]).saved
      = some { wSettings with lastSyncTime := some 9 } ∧
    (syncF wSettings (.ok wSnap) 9 wVault [memoPath "f" wMemo]).notices
      = ["Start syncing memos.", "Sync memos successfully."] ∧
    ∀ m ∈ wSnap.memos, skipMemo wSettings.lastSyncTime m = false →
      ¬ memoPath wSettings.folderToSync m ∈ [memoPath "f" wMemo] →
      lookupFile (syncF wSettings (.ok wSnap) 9 wVault
          [memoPath "f" wMemo]).vault.files
          (memoPath wSettings.folderToSync m)
        = some (.text m.content)) :=
  ⟨by decide,
    store_error_best_effort wSettings wSnap 9 wVault [memoPath "f" wMemo]
      (by decide) (by decide)⟩

end MemosSync
